import Mathlib

/-!
Verification of the piecewise-linear knot interpolation routine from the
Bayesian time-series notebook (`Section4_1-Bayesian_Time_Series.ipynb`).

The notebook defines (cell with the univariate model):

```python
def interpolate(x0, y0, x):
    x = np.array(x)
    idx = np.searchsorted(x0, x)
    dl = np.array(x - x0[idx - 1])
    dr = np.array(x0[idx] - x)
    d = dl + dr
    wl = dr / d
    return wl * y0[idx - 1] + (1 - wl) * y0[idx]
```

and a grouped variant (multivariate model) that reads `y0[idx - 1, group]`
and `y0[idx, group]` from a 2-D table instead.

We embed these per scalar query over exact rationals.  `np.searchsorted`
with its default `side='left'` returns the leftmost insertion point: the
smallest index `idx` with `x0[idx] >= x` (or `len(x0)` when no such index
exists).  Python's negative indexing (`a[-1]` is the last element) and
out-of-bounds `IndexError` are modelled by `pyGet` returning `Option`.
-/

namespace KnotInterp

/-- Leftmost insertion point, the semantics of `np.searchsorted(x0, x)`
with the default `side='left'` on a sorted array: the smallest index `idx`
with `x0[idx] >= x`, or `x0.length` when every element is `< x`. -/
def searchsorted (x0 : List ℚ) (x : ℚ) : ℕ :=
  match x0 with
  | [] => 0
  | a :: rest => if x ≤ a then 0 else searchsorted rest x + 1

/-- Python sequence indexing `l[i]`: a negative index `i` wraps to
`l[len(l) + i]`; an index out of bounds raises `IndexError`, modelled as
`none`. -/
def pyGet {α : Type} (l : List α) (i : ℤ) : Option α :=
  let j : ℤ := if i < 0 then (l.length : ℤ) + i else i
  if 0 ≤ j then l.get? j.toNat else none

/-- Table access `t[i, g]` (row `i`, column `g`), with Python indexing
conventions on both axes. -/
def pyGet2 {α : Type} (t : List (List α)) (i g : ℤ) : Option α :=
  (pyGet t i).bind fun row => pyGet row g

/-- The notebook's univariate `interpolate(x0, y0, x)` at a single scalar
query `x`.  `idx = np.searchsorted(x0, x)`; then
`dl = x - x0[idx-1]`, `dr = x0[idx] - x`, `d = dl + dr`, `wl = dr / d`,
result `wl * y0[idx-1] + (1 - wl) * y0[idx]`.  An out-of-bounds access
(`IndexError` in Python) yields `none`. -/
def interpolate (x0 y0 : List ℚ) (x : ℚ) : Option ℚ :=
  let idx : ℤ := searchsorted x0 x
  match pyGet x0 (idx - 1), pyGet x0 idx, pyGet y0 (idx - 1), pyGet y0 idx with
  | some xl, some xr, some yl, some yr =>
      let dl := x - xl
      let dr := xr - x
      let d := dl + dr
      let wl := dr / d
      some (wl * yl + (1 - wl) * yr)
  | _, _, _, _ => none

/-- The notebook's grouped `interpolate(x0, y0, x, group)` at a single
scalar query `x` with group index `group`: identical search and weighting,
but the values are read from the 2-D table `y0` at `y0[idx - 1, group]`
and `y0[idx, group]`. -/
def interpolateGrouped (x0 : List ℚ) (y0 : List (List ℚ)) (x : ℚ) (group : ℤ) :
    Option ℚ :=
  let idx : ℤ := searchsorted x0 x
  match pyGet x0 (idx - 1), pyGet x0 idx,
        pyGet2 y0 (idx - 1) group, pyGet2 y0 idx group with
  | some xl, some xr, some yl, some yr =>
      let dl := x - xl
      let dr := xr - x
      let d := dl + dr
      let wl := dr / d
      some (wl * yl + (1 - wl) * yr)
  | _, _, _, _ => none

/-- Batch evaluation of the univariate routine over a list of queries.
NumPy's vectorised indexing raises before any output is produced when any
index is invalid, so the batch is all-or-nothing. -/
def interpolateMany (x0 y0 : List ℚ) : List ℚ → Option (List ℚ)
  | [] => some []
  | q :: qs =>
      match interpolate x0 y0 q, interpolateMany x0 y0 qs with
      | some v, some vs => some (v :: vs)
      | _, _ => none

/-! ### Basic lemmas about the embedded primitives -/

theorem getD_eq_get {α : Type} (l : List α) (d : α) (n : ℕ) (h : n < l.length) :
    l.getD n d = l.get ⟨n, h⟩ := by
  rw [List.getD_eq_get?, List.get?_eq_get h]
  rfl

theorem searchsorted_le_length (x0 : List ℚ) (x : ℚ) :
    searchsorted x0 x ≤ x0.length := by
  induction x0 with
  | nil => simp [searchsorted]
  | cons a rest ih =>
    simp only [searchsorted, List.length_cons]
    split
    · omega
    · omega

theorem x_le_getD_searchsorted (x0 : List ℚ) (x : ℚ)
    (h : searchsorted x0 x < x0.length) :
    x ≤ x0.getD (searchsorted x0 x) 0 := by
  induction x0 with
  | nil => simp [searchsorted] at h
  | cons a rest ih =>
    by_cases hxa : x ≤ a
    · simpa [searchsorted, hxa] using hxa
    · simp only [searchsorted, if_neg hxa, List.length_cons] at h ⊢
      rw [List.getD_cons_succ]
      exact ih (by omega)

theorem getD_lt_of_lt_searchsorted (x0 : List ℚ) (x : ℚ) (j : ℕ)
    (hj : j < searchsorted x0 x) : x0.getD j 0 < x := by
  induction x0 generalizing j with
  | nil => simp [searchsorted] at hj
  | cons a rest ih =>
    by_cases hxa : x ≤ a
    · simp [searchsorted, hxa] at hj
    · cases j with
      | zero => simpa [List.getD_cons_zero] using not_le.mp hxa
      | succ j =>
        simp only [searchsorted, if_neg hxa] at hj
        simpa [List.getD_cons_succ] using ih j (by omega)

theorem searchsorted_le_of_le (x0 : List ℚ) (x : ℚ) (k : ℕ)
    (hk : k < x0.length) (h : x ≤ x0.getD k 0) : searchsorted x0 x ≤ k := by
  induction x0 generalizing k with
  | nil => simp at hk
  | cons a rest ih =>
    by_cases hxa : x ≤ a
    · simp [searchsorted, hxa]
    · cases k with
      | zero => rw [List.getD_cons_zero] at h; exact absurd h hxa
      | succ k =>
        simp only [searchsorted, if_neg hxa]
        have := ih k (by simpa [List.length_cons] using hk)
          (by simpa [List.getD_cons_succ] using h)
        omega

theorem le_searchsorted (x0 : List ℚ) (x : ℚ) (k : ℕ) (hk : k ≤ x0.length)
    (h : ∀ j, j < k → x0.getD j 0 < x) : k ≤ searchsorted x0 x := by
  by_contra hc
  push_neg at hc
  have hs : searchsorted x0 x < x0.length := lt_of_lt_of_le hc hk
  exact absurd (x_le_getD_searchsorted x0 x hs) (not_le.2 (h _ hc))

theorem searchsorted_eq_length (x0 : List ℚ) (x : ℚ)
    (h : ∀ a ∈ x0, a < x) : searchsorted x0 x = x0.length := by
  induction x0 with
  | nil => rfl
  | cons a rest ih =>
    have ha : a < x := h a (List.mem_cons_self a rest)
    simp only [searchsorted, if_neg (not_le.2 ha), List.length_cons]
    rw [ih fun b hb => h b (List.mem_cons_of_mem a hb)]

theorem sorted_getD_lt (x0 : List ℚ) (hs : x0.Sorted (· < ·)) (i j : ℕ)
    (hij : i < j) (hj : j < x0.length) : x0.getD i 0 < x0.getD j 0 := by
  have hi : i < x0.length := lt_trans hij hj
  rw [getD_eq_get x0 0 i hi, getD_eq_get x0 0 j hj]
  exact List.pairwise_iff_get.mp hs ⟨i, hi⟩ ⟨j, hj⟩ hij

theorem forall_mem_lt_of_last_lt (x0 : List ℚ) (x : ℚ)
    (hs : x0.Sorted (· < ·)) (h : x0.getD (x0.length - 1) 0 < x) :
    ∀ a ∈ x0, a < x := by
  intro a ha
  obtain ⟨⟨i, hi⟩, rfl⟩ := List.mem_iff_get.mp ha
  rw [← getD_eq_get x0 0 i hi]
  rcases eq_or_lt_of_le (Nat.le_sub_one_of_lt hi) with he | hlt
  · rwa [he]
  · exact lt_trans (sorted_getD_lt x0 hs i (x0.length - 1) hlt (by omega)) h

theorem pyGet_of_nonneg {α : Type} (l : List α) (i : ℤ) (h : 0 ≤ i) :
    pyGet l i = l.get? i.toNat := by
  simp only [pyGet, if_neg (not_lt.2 h), if_pos h]

theorem pyGet_eq_some {α : Type} (l : List α) (d : α) (n : ℕ)
    (h : n < l.length) : pyGet l (n : ℤ) = some (l.getD n d) := by
  rw [pyGet_of_nonneg l _ (Int.ofNat_nonneg n), Int.toNat_ofNat,
    List.get?_eq_get h, getD_eq_get l d n h]

theorem pyGet_eq_none {α : Type} (l : List α) (n : ℕ)
    (h : l.length ≤ n) : pyGet l (n : ℤ) = none := by
  rw [pyGet_of_nonneg l _ (Int.ofNat_nonneg n), Int.toNat_ofNat]
  exact List.get?_eq_none.mpr h

theorem pyGet_neg_one {α : Type} (l : List α) (d : α) (h : l ≠ []) :
    pyGet l (-1) = some (l.getD (l.length - 1) d) := by
  have hlen : 1 ≤ l.length := List.length_pos.mpr h
  have hj : ((l.length : ℤ) + -1) = ((l.length - 1 : ℕ) : ℤ) := by omega
  simp only [pyGet, if_pos (show (-1 : ℤ) < 0 by norm_num)]
  rw [hj, if_pos (Int.ofNat_nonneg _), Int.toNat_ofNat,
    List.get?_eq_get (by omega), getD_eq_get l d _ (by omega)]

theorem pyGet_mem {α : Type} {l : List α} {i : ℤ} {a : α}
    (h : pyGet l i = some a) : a ∈ l := by
  simp only [pyGet] at h
  split at h <;> split at h <;>
    first
      | exact List.get?_mem h
      | exact absurd h (by simp)

theorem pyGet_map {α β : Type} (f : α → β) (l : List α) (i : ℤ) :
    pyGet (l.map f) i = (pyGet l i).map f := by
  simp only [pyGet, List.length_map]
  split <;> split <;> simp [List.get?_eq_getElem?]

/-! ### Unfolding the interpolation routine under valid indexing -/

/-- When the insertion index is at least 1 and strictly below the number of
knots, every array access in `interpolate` is an ordinary in-bounds access,
and the routine computes the weighted combination from the source verbatim
(`dl = x - x0[idx-1]`, `dr = x0[idx] - x`, `d = dl + dr`, `wl = dr / d`). -/
theorem interpolate_eq (x0 y0 : List ℚ) (x : ℚ)
    (hlen : y0.length = x0.length)
    (h1 : 1 ≤ searchsorted x0 x) (h2 : searchsorted x0 x < x0.length) :
    interpolate x0 y0 x =
      some (((x0.getD (searchsorted x0 x) 0 - x) /
              ((x - x0.getD (searchsorted x0 x - 1) 0) +
               (x0.getD (searchsorted x0 x) 0 - x))) *
              y0.getD (searchsorted x0 x - 1) 0 +
            (1 - (x0.getD (searchsorted x0 x) 0 - x) /
              ((x - x0.getD (searchsorted x0 x - 1) 0) +
               (x0.getD (searchsorted x0 x) 0 - x))) *
              y0.getD (searchsorted x0 x) 0) := by
  have hcast : ((searchsorted x0 x : ℤ) - 1) =
      ((searchsorted x0 x - 1 : ℕ) : ℤ) := by omega
  have e1 : pyGet x0 ((searchsorted x0 x : ℤ) - 1) =
      some (x0.getD (searchsorted x0 x - 1) 0) := by
    rw [hcast]; exact pyGet_eq_some _ _ _ (by omega)
  have e2 : pyGet x0 (searchsorted x0 x : ℤ) =
      some (x0.getD (searchsorted x0 x) 0) := pyGet_eq_some _ _ _ h2
  have e3 : pyGet y0 ((searchsorted x0 x : ℤ) - 1) =
      some (y0.getD (searchsorted x0 x - 1) 0) := by
    rw [hcast]; exact pyGet_eq_some _ _ _ (by omega)
  have e4 : pyGet y0 (searchsorted x0 x : ℤ) =
      some (y0.getD (searchsorted x0 x) 0) := pyGet_eq_some _ _ _ (by omega)
  simp only [interpolate, e1, e2, e3, e4]

/-- An in-range query (`x0[0] < x ≤ x0[n-1]`) pins the insertion index to
the interval `[1, n-1]`. -/
theorem searchsorted_bounds (x0 : List ℚ) (x : ℚ) (hn : 2 ≤ x0.length)
    (hlo : x0.getD 0 0 < x) (hhi : x ≤ x0.getD (x0.length - 1) 0) :
    1 ≤ searchsorted x0 x ∧ searchsorted x0 x ≤ x0.length - 1 := by
  constructor
  · refine le_searchsorted x0 x 1 (by omega) ?_
    intro j hj
    interval_cases j
    exact hlo
  · exact searchsorted_le_of_le x0 x (x0.length - 1) (by omega) hhi

/-- A failing query poisons the whole batch: if one query in the list maps
to `none`, the batch result is `none` (no partial output). -/
theorem interpolateMany_eq_none (x0 y0 : List ℚ) (xs : List ℚ) (x : ℚ)
    (hx : interpolate x0 y0 x = none) (hmem : x ∈ xs) :
    interpolateMany x0 y0 xs = none := by
  induction xs with
  | nil => cases hmem
  | cons q qs ih =>
    rcases List.mem_cons.mp hmem with h | h
    · subst h
      simp [interpolateMany, hx]
    · have hqs := ih h
      simp only [interpolateMany, hqs]
      cases interpolate x0 y0 q <;> rfl

/-- Reading a fixed, everywhere-valid column `g` through the table access
is the same as first extracting column `g` and then indexing. -/
theorem pyGet2_eq_pyGet_map (y0 : List (List ℚ)) (i : ℤ) (g : ℕ)
    (hg : ∀ row ∈ y0, g < row.length) :
    pyGet2 y0 i (g : ℤ) = pyGet (y0.map fun row => row.getD g 0) i := by
  rw [pyGet_map]
  rcases hrow : pyGet y0 i with _ | row
  · simp [pyGet2, hrow]
  · have hm : row ∈ y0 := pyGet_mem hrow
    simp only [pyGet2, hrow, Option.bind_some, Option.map_some]
    exact pyGet_eq_some row 0 g (hg row hm)

/-- With a fixed group index, the grouped routine coincides with the
univariate routine applied to the corresponding column of the table. -/
theorem interpolateGrouped_eq_interpolate (x0 : List ℚ) (y0 : List (List ℚ))
    (x : ℚ) (g : ℕ) (hg : ∀ row ∈ y0, g < row.length) :
    interpolateGrouped x0 y0 x (g : ℤ) =
      interpolate x0 (y0.map fun row => row.getD g 0) x := by
  simp only [interpolateGrouped, interpolate,
    pyGet2_eq_pyGet_map y0 _ g hg]

/-- Extracting an in-bounds row of the column view. -/
theorem getD_map_col (y0 : List (List ℚ)) (g : ℕ) (k : ℕ)
    (hk : k < y0.length) :
    (y0.map fun row => row.getD g 0).getD k 0 = (y0.getD k []).getD g 0 := by
  rw [getD_eq_get _ 0 k (by simpa using hk), getD_eq_get y0 [] k hk]
  simp [List.get_map]

/-! ### Claim theorems -/

/-- C1: For a strictly increasing knot sequence `x0` of length `n ≥ 2`,
aligned knot values `y0`, and any query `x` with `x0[0] < x ≤ x0[n-1]`,
the index computed by the routine is the leftmost insertion point (every
knot before it is `< x` and the knot at it is `≥ x`), and `interpolate`
returns `wl * y0[idx-1] + (1 - wl) * y0[idx]` with
`wl = (x0[idx] - x) / (x0[idx] - x0[idx-1])`. -/
theorem interpolate_weighted_average (x0 y0 : List ℚ) (x : ℚ)
    (hsort : x0.Sorted (· < ·)) (hn : 2 ≤ x0.length)
    (hlen : y0.length = x0.length)
    (hlo : x0.getD 0 0 < x) (hhi : x ≤ x0.getD (x0.length - 1) 0) :
    (∀ j, j < searchsorted x0 x → x0.getD j 0 < x) ∧
    x ≤ x0.getD (searchsorted x0 x) 0 ∧
    interpolate x0 y0 x =
      some (((x0.getD (searchsorted x0 x) 0 - x) /
              (x0.getD (searchsorted x0 x) 0 -
               x0.getD (searchsorted x0 x - 1) 0)) *
              y0.getD (searchsorted x0 x - 1) 0 +
            (1 - (x0.getD (searchsorted x0 x) 0 - x) /
              (x0.getD (searchsorted x0 x) 0 -
               x0.getD (searchsorted x0 x - 1) 0)) *
              y0.getD (searchsorted x0 x) 0) := by
  obtain ⟨h1, h2'⟩ := searchsorted_bounds x0 x hn hlo hhi
  have h2 : searchsorted x0 x < x0.length := by omega
  refine ⟨fun j hj => getD_lt_of_lt_searchsorted x0 x j hj,
    x_le_getD_searchsorted x0 x h2, ?_⟩
  rw [interpolate_eq x0 y0 x hlen h1 h2]
  have hden : (x - x0.getD (searchsorted x0 x - 1) 0) +
      (x0.getD (searchsorted x0 x) 0 - x) =
      x0.getD (searchsorted x0 x) 0 - x0.getD (searchsorted x0 x - 1) 0 := by
    ring
  rw [hden]

/-- C1 witness: on knots `[0, 4]` with values `[1, 9]` at query `3`, the
formula gives `(1/4) * 1 + (3/4) * 9 = 7`. -/
theorem interpolate_weighted_average_check :
    interpolate [0, 4] [1, 9] 3 = some 7 := by
  have h := interpolate_weighted_average [0, 4] [1, 9] 3
    (by norm_num [List.sorted_cons]) (by norm_num) rfl
    (by norm_num) (by norm_num)
  rw [h.2.2]
  norm_num [searchsorted]

/-- C2 counterexample: the claim asserts the value returned at
`x = knotPositions[0]` differs from `knotValues[0]`; on knots `[0, 10]`
with values `[5, 15]` the query `0` returns exactly `some 5`, which is
`knotValues[0]`. -/
theorem left_boundary_value_example :
    interpolate [0, 10] [5, 15] 0 = some 5 := by
  norm_num [interpolate, searchsorted, pyGet]

/-- C2 amended: at `x = knotPositions[0]` the search does return
`idx = 0` and `knotPositions[idx-1]` does wrap to the last element, but
the returned value is nevertheless exactly `knotValues[0]`, because the
right-side distance `dr = x0[0] - x` is `0`, making the left weight
`wl = 0 / (x0[0] - x0[n-1]) = 0`. -/
theorem left_boundary_wraparound (x0 y0 : List ℚ) (x : ℚ)
    (hsort : x0.Sorted (· < ·)) (hn : 2 ≤ x0.length)
    (hlen : y0.length = x0.length) (hx : x = x0.getD 0 0) :
    searchsorted x0 x = 0 ∧
    pyGet x0 ((searchsorted x0 x : ℤ) - 1) =
      some (x0.getD (x0.length - 1) 0) ∧
    interpolate x0 y0 x = some (y0.getD 0 0) := by
  subst hx
  have hne : x0 ≠ [] := by
    intro h
    rw [h] at hn
    simp at hn
  have hne2 : y0 ≠ [] := by
    intro h
    rw [h] at hlen
    simp at hlen
    omega
  have hss : searchsorted x0 (x0.getD 0 0) = 0 :=
    Nat.le_zero.mp (searchsorted_le_of_le x0 _ 0 (by omega) le_rfl)
  have hm1 : ((0 : ℕ) : ℤ) - 1 = -1 := by norm_num
  have e1 : pyGet x0 (-1) = some (x0.getD (x0.length - 1) 0) :=
    pyGet_neg_one x0 0 hne
  have e3 : pyGet y0 (-1) = some (y0.getD (y0.length - 1) 0) :=
    pyGet_neg_one y0 0 hne2
  have e2 : pyGet x0 ((0 : ℕ) : ℤ) = some (x0.getD 0 0) :=
    pyGet_eq_some x0 0 0 (by omega)
  have e4 : pyGet y0 ((0 : ℕ) : ℤ) = some (y0.getD 0 0) :=
    pyGet_eq_some y0 0 0 (by omega)
  refine ⟨hss, by rw [hss, hm1, e1], ?_⟩
  simp only [interpolate, hss, hm1, e1, e2, e3, e4]
  simp

/-- C2 amended witness: on knots `[0, 10]` with values `[5, 15]`, the
query equal to the left knot returns `some 5 = knotValues[0]`, the index
is `0`, and index `-1` wraps to the last knot `10`. -/
theorem left_boundary_wraparound_check :
    searchsorted [0, 10] (([0, 10] : List ℚ).getD 0 0) = 0 ∧
    pyGet [0, 10]
      ((searchsorted [0, 10] (([0, 10] : List ℚ).getD 0 0) : ℤ) - 1) =
      some (([0, 10] : List ℚ).getD (([0, 10] : List ℚ).length - 1) 0) ∧
    interpolate [0, 10] [5, 15] (([0, 10] : List ℚ).getD 0 0) =
      some (([5, 15] : List ℚ).getD 0 0) :=
  left_boundary_wraparound [0, 10] [5, 15] _
    (by norm_num [List.sorted_cons]) (by norm_num) rfl rfl

/-- C3 counterexample: the claim asserts every precondition violation is
detected eagerly and reported as an error with no partial results; the
code performs no validation: the below-range query `-5` on knots
`[0, 10]` with values `[5, 15]` silently returns `some 0`, and a batch
containing it returns `some [0, 10]` rather than an error. -/
theorem no_eager_validation_example :
    interpolate [0, 10] [5, 15] (-5) = some 0 ∧
    interpolateMany [0, 10] [5, 15] [-5, 5] = some [0, 10] := by
  constructor
  · norm_num [interpolate, searchsorted, pyGet]
  · norm_num [interpolateMany, interpolate, searchsorted, pyGet]

/-- C3 amended: the code performs no eager validation. A query
`x > knotPositions[n-1]` does fail — the search returns `idx = n` and
reading `knotPositions[idx]` is an out-of-bounds access (`none`), and a
batch containing such a query yields no partial output — but the failure
is an indexing error at access time, not an up-front `OutOfRange` check,
and other violations (e.g. `x < knotPositions[0]`) silently produce
values. -/
theorem out_of_range_right_none (x0 y0 : List ℚ) (x : ℚ) (xs : List ℚ)
    (hsort : x0.Sorted (· < ·)) (hn : 1 ≤ x0.length)
    (hlen : y0.length = x0.length)
    (hx : x0.getD (x0.length - 1) 0 < x) (hmem : x ∈ xs) :
    interpolate x0 y0 x = none ∧ interpolateMany x0 y0 xs = none := by
  have hall : ∀ a ∈ x0, a < x := forall_mem_lt_of_last_lt x0 x hsort hx
  have hss : searchsorted x0 x = x0.length := searchsorted_eq_length x0 x hall
  have hcast : ((x0.length : ℤ) - 1) = ((x0.length - 1 : ℕ) : ℤ) := by omega
  have e1 : pyGet x0 ((x0.length : ℤ) - 1) =
      some (x0.getD (x0.length - 1) 0) := by
    rw [hcast]
    exact pyGet_eq_some _ _ _ (by omega)
  have e2 : pyGet x0 (x0.length : ℤ) = none := pyGet_eq_none x0 _ le_rfl
  have e3 : pyGet y0 ((x0.length : ℤ) - 1) =
      some (y0.getD (x0.length - 1) 0) := by
    rw [hcast]
    exact pyGet_eq_some _ _ _ (by omega)
  have e4 : pyGet y0 (x0.length : ℤ) = none := pyGet_eq_none y0 _ (by omega)
  have hnone : interpolate x0 y0 x = none := by
    simp only [interpolate, hss, e1, e2, e3, e4]
  exact ⟨hnone, interpolateMany_eq_none x0 y0 xs x hnone hmem⟩

/-- C3 amended witness: query `25` beyond the last knot `10` yields
`none`, and a batch containing it yields `none`. -/
theorem out_of_range_right_none_check :
    interpolate [0, 10] [5, 15] 25 = none ∧
    interpolateMany [0, 10] [5, 15] [25] = none :=
  out_of_range_right_none [0, 10] [5, 15] 25 [25]
    (by norm_num [List.sorted_cons]) (by norm_num) rfl (by norm_num)
    (by norm_num)

/-- C5: for a strictly increasing knot sequence and aligned values, the
interpolated value at a query exactly equal to an interior knot
`x0[k]` (`0 < k < n-1`) is exactly `y0[k]`: the leftmost search resolves
the tie to index `k`, so `dr = 0` and the weight on the matching side
is `1`. -/
theorem interpolate_at_interior_knot (x0 y0 : List ℚ) (k : ℕ)
    (hsort : x0.Sorted (· < ·)) (hlen : y0.length = x0.length)
    (hk0 : 0 < k) (hk1 : k < x0.length - 1) :
    interpolate x0 y0 (x0.getD k 0) = some (y0.getD k 0) := by
  have hkl : k < x0.length := by omega
  have hks : searchsorted x0 (x0.getD k 0) = k :=
    le_antisymm (searchsorted_le_of_le x0 _ k hkl le_rfl)
      (le_searchsorted x0 _ k hkl.le fun j hj =>
        sorted_getD_lt x0 hsort j k hj hkl)
  rw [interpolate_eq x0 y0 _ hlen (by omega) (by omega), hks]
  simp

/-- C5 witness: on knots `[0, 4, 8]` with values `[1, 9, 3]`, the query
equal to the interior knot `4` returns exactly `9`. -/
theorem interpolate_at_interior_knot_check :
    interpolate [0, 4, 8] [1, 9, 3] (([0, 4, 8] : List ℚ).getD 1 0) =
      some (([1, 9, 3] : List ℚ).getD 1 0) :=
  interpolate_at_interior_knot [0, 4, 8] [1, 9, 3] 1
    (by norm_num [List.sorted_cons]) rfl (by norm_num) (by norm_num)

/-- C9: concrete scenarios from the spec: on knots `[0, 10, 20]` with
values `[0, 100, 0]`, queries `5` and `15` both return `50`; on knots
`[0, 10]` with values `[5, 15]`, the query `10` at the exact right knot
returns `15`. -/
theorem interpolate_concrete_scenarios :
    interpolate [0, 10, 20] [0, 100, 0] 5 = some 50 ∧
    interpolate [0, 10, 20] [0, 100, 0] 15 = some 50 ∧
    interpolate [0, 10] [5, 15] 10 = some 15 := by
  refine ⟨?_, ?_, ?_⟩ <;>
    norm_num [interpolate, searchsorted, pyGet,
      show Int.toNat 2 = 2 from rfl]

/-- C4: the grouped routine applies the same search and weighting logic
as the univariate one, reading the values table at `(idx-1, g)` and
`(idx, g)`: under the same validity hypotheses it returns
`wl * y0[idx-1][g] + (1 - wl) * y0[idx][g]` with the same weight `wl`. -/
theorem interpolateGrouped_weighted_average (x0 : List ℚ)
    (y0 : List (List ℚ)) (x : ℚ) (g : ℕ)
    (hsort : x0.Sorted (· < ·)) (hn : 2 ≤ x0.length)
    (hlen : y0.length = x0.length) (hg : ∀ row ∈ y0, g < row.length)
    (hlo : x0.getD 0 0 < x) (hhi : x ≤ x0.getD (x0.length - 1) 0) :
    interpolateGrouped x0 y0 x (g : ℤ) =
      some (((x0.getD (searchsorted x0 x) 0 - x) /
              (x0.getD (searchsorted x0 x) 0 -
               x0.getD (searchsorted x0 x - 1) 0)) *
              (y0.getD (searchsorted x0 x - 1) []).getD g 0 +
            (1 - (x0.getD (searchsorted x0 x) 0 - x) /
              (x0.getD (searchsorted x0 x) 0 -
               x0.getD (searchsorted x0 x - 1) 0)) *
              (y0.getD (searchsorted x0 x) []).getD g 0) := by
  obtain ⟨h1, h2'⟩ := searchsorted_bounds x0 x hn hlo hhi
  have h2 : searchsorted x0 x < x0.length := by omega
  have hden : (x - x0.getD (searchsorted x0 x - 1) 0) +
      (x0.getD (searchsorted x0 x) 0 - x) =
      x0.getD (searchsorted x0 x) 0 - x0.getD (searchsorted x0 x - 1) 0 := by
    ring
  rw [interpolateGrouped_eq_interpolate x0 y0 x g hg,
    interpolate_eq _ _ _ (by simpa using hlen) h1 h2,
    getD_map_col y0 g _ (by omega), getD_map_col y0 g _ (by omega), hden]

/-- C4 witness: on knots `[0, 10]` with table `[[1, 100], [2, 200]]`, the
query `5` in group `1` returns `150`. -/
theorem interpolateGrouped_weighted_average_check :
    interpolateGrouped [0, 10] [[1, 100], [2, 200]] 5 ((1 : ℕ) : ℤ) =
      some 150 := by
  have h := interpolateGrouped_weighted_average [0, 10]
    [[1, 100], [2, 200]] 5 1 (by norm_num [List.sorted_cons]) (by norm_num)
    rfl
    (by
      intro row hr
      rcases List.mem_cons.mp hr with rfl | hr
      · norm_num
      · rcases List.mem_cons.mp hr with rfl | hr
        · norm_num
        · cases hr)
    (by norm_num) (by norm_num)
  rw [h]
  norm_num [searchsorted]

/-- C6: for a query strictly between adjacent knots, the interpolated
value lies between the two bracketing knot values (linear interpolation
does not overshoot). -/
theorem interpolate_no_overshoot (x0 y0 : List ℚ) (x : ℚ) (i : ℕ)
    (hsort : x0.Sorted (· < ·)) (hlen : y0.length = x0.length)
    (hi : i + 1 < x0.length)
    (hl : x0.getD i 0 < x) (hr : x < x0.getD (i + 1) 0) :
    ∃ v, interpolate x0 y0 x = some v ∧
      min (y0.getD i 0) (y0.getD (i + 1) 0) ≤ v ∧
      v ≤ max (y0.getD i 0) (y0.getD (i + 1) 0) := by
  have hss : searchsorted x0 x = i + 1 := by
    refine le_antisymm (searchsorted_le_of_le x0 x (i + 1) hi hr.le) ?_
    refine le_searchsorted x0 x (i + 1) (by omega) ?_
    intro j hj
    rcases Nat.lt_succ_iff_lt_or_eq.mp hj with hji | hje
    · exact lt_trans (sorted_getD_lt x0 hsort j i hji (by omega)) hl
    · subst hje
      exact hl
  rw [interpolate_eq x0 y0 x hlen (by omega) (by omega), hss,
    Nat.add_sub_cancel]
  refine ⟨_, rfl, ?_, ?_⟩ <;>
  · set xl := x0.getD i 0 with hxl
    set xr := x0.getD (i + 1) 0 with hxr
    set yl := y0.getD i 0 with hyl
    set yr := y0.getD (i + 1) 0 with hyr
    set w := (xr - x) / ((x - xl) + (xr - x)) with hwdef
    have hd : 0 < (x - xl) + (xr - x) := by linarith
    have hw0 : 0 ≤ w := by
      rw [hwdef]
      exact div_nonneg (by linarith) hd.le
    have hw1 : w ≤ 1 := by
      rw [hwdef, div_le_one hd]
      linarith
    first
      | exact by
          have a1 := mul_le_mul_of_nonneg_left (min_le_left yl yr) hw0
          have a2 := mul_le_mul_of_nonneg_left (min_le_right yl yr)
            (by linarith : (0 : ℚ) ≤ 1 - w)
          linarith
      | exact by
          have a1 := mul_le_mul_of_nonneg_left (le_max_left yl yr) hw0
          have a2 := mul_le_mul_of_nonneg_left (le_max_right yl yr)
            (by linarith : (0 : ℚ) ≤ 1 - w)
          linarith

/-- C6 witness: on knots `[0, 4]` with values `[2, 10]`, the query `1`
strictly inside the interval yields a value between `2` and `10`. -/
theorem interpolate_no_overshoot_check :
    ∃ v, interpolate [0, 4] [2, 10] 1 = some v ∧
      min (([2, 10] : List ℚ).getD 0 0) (([2, 10] : List ℚ).getD 1 0) ≤ v ∧
      v ≤ max (([2, 10] : List ℚ).getD 0 0) (([2, 10] : List ℚ).getD 1 0) :=
  interpolate_no_overshoot [0, 4] [2, 10] 1 0
    (by norm_num [List.sorted_cons]) rfl (by norm_num) (by norm_num)
    (by norm_num)

/-- C7: interpolation is affine in the knot values: scaling every knot
value by `c` scales the output by `c`, and adding `c` to every knot value
adds `c` to the output.  This holds for every input, valid or not, since
the weights depend only on the knot positions and sum to one. -/
theorem interpolate_affine (x0 y0 : List ℚ) (x c : ℚ) :
    interpolate x0 (y0.map fun v => c * v) x =
      Option.map (fun v => c * v) (interpolate x0 y0 x) ∧
    interpolate x0 (y0.map fun v => v + c) x =
      Option.map (fun v => v + c) (interpolate x0 y0 x) := by
  constructor <;>
  · simp only [interpolate, pyGet_map]
    cases h1 : pyGet x0 ((searchsorted x0 x : ℤ) - 1) <;>
      cases h2 : pyGet x0 ((searchsorted x0 x : ℤ)) <;>
        cases h3 : pyGet y0 ((searchsorted x0 x : ℤ) - 1) <;>
          cases h4 : pyGet y0 ((searchsorted x0 x : ℤ)) <;>
            simp <;> ring

/-- C8: the routines are deterministic functions of their arguments: two
results obtained from identical inputs are equal.  The embedding is a
pure function because the source reads nothing but its arguments. -/
theorem interpolate_deterministic (x0 y0 : List ℚ) (yt : List (List ℚ))
    (x : ℚ) (g : ℤ) (r1 r2 s1 s2 : Option ℚ)
    (h1 : r1 = interpolate x0 y0 x) (h2 : r2 = interpolate x0 y0 x)
    (h3 : s1 = interpolateGrouped x0 yt x g)
    (h4 : s2 = interpolateGrouped x0 yt x g) :
    r1 = r2 ∧ s1 = s2 :=
  ⟨h1.trans h2.symm, h3.trans h4.symm⟩

/-- C8 witness: two evaluations of each routine on identical concrete
inputs produce the same result. -/
theorem interpolate_deterministic_check :
    (some 10 : Option ℚ) = some 10 ∧ (some 150 : Option ℚ) = some 150 :=
  interpolate_deterministic [0, 10] [5, 15] [[1, 100], [2, 200]] 5 1
    (some 10) (some 10) (some 150) (some 150)
    (by norm_num [interpolate, searchsorted, pyGet])
    (by norm_num [interpolate, searchsorted, pyGet])
    (by norm_num [interpolateGrouped, searchsorted, pyGet, pyGet2])
    (by norm_num [interpolateGrouped, searchsorted, pyGet, pyGet2])

/-- C10: for a strictly increasing knot sequence, a values table whose
rows all have column `g`, and an in-range query, the grouped routine with
group `g` returns exactly what the univariate routine returns on column
`g` of the table. -/
theorem interpolateGrouped_refines_univariate (x0 : List ℚ)
    (y0 : List (List ℚ)) (x : ℚ) (g : ℕ)
    (hsort : x0.Sorted (· < ·)) (hn : 2 ≤ x0.length)
    (hlen : y0.length = x0.length) (hg : ∀ row ∈ y0, g < row.length)
    (hlo : x0.getD 0 0 < x) (hhi : x ≤ x0.getD (x0.length - 1) 0) :
    interpolateGrouped x0 y0 x (g : ℤ) =
      interpolate x0 (y0.map fun row => row.getD g 0) x :=
  interpolateGrouped_eq_interpolate x0 y0 x g hg

/-- C10 witness: on knots `[0, 10]` with table `[[1, 100], [2, 200]]` and
query `5`, the grouped routine with group `0` agrees with the univariate
routine on column `0`. -/
theorem interpolateGrouped_refines_univariate_check :
    interpolateGrouped [0, 10] [[1, 100], [2, 200]] 5 ((0 : ℕ) : ℤ) =
      interpolate [0, 10]
        (([[1, 100], [2, 200]] : List (List ℚ)).map fun row =>
          row.getD 0 0) 5 :=
  interpolateGrouped_refines_univariate [0, 10] [[1, 100], [2, 200]] 5 0
    (by norm_num [List.sorted_cons]) (by norm_num) rfl
    (by
      intro row hr
      rcases List.mem_cons.mp hr with rfl | hr
      · norm_num
      · rcases List.mem_cons.mp hr with rfl | hr
        · norm_num
        · cases hr)
    (by norm_num) (by norm_num)

end KnotInterp
